import Mathlib

/-!
Verification of the lokex client library's resilience and safety machinery:
a shallow embedding of the error classifier (`apierr.IsRetryable`,
`apierr.JitteredBackoff`, `apierr.Parse`), the retry controller
(`client.withExpBackoff`, `client.doWithRetry`), the process poller
(`client.PollProcesses`) and the archive extraction guard
(`client.unzipSafe`), together with theorems about the specified
properties.

Go machine integers are modelled as `Int`/`Nat`, with int64 wraparound
made explicit where the source can overflow (`JitteredBackoff`); Go
`time.Duration` is `Int` nanoseconds, byte strings are
`String`/`List Nat`, and the two external sources of nondeterminism are
explicit oracles: the random jitter delta is a parameter constrained to
the range `rand.Int63n` guarantees, and context cancellation is a
per-sleep boolean oracle describing which arm of the Go `select` fires
first.  The module requires Go ≥ 1.21 (download.go imports the `maps`
package), which fixes the `archive/zip` semantics the extractor model
relies on.
-/

namespace Lokex

/-- Model of a decoded Go `any` JSON value (`encoding/json` output).
Numbers are carried as their literal decimal token, which is how the
integer-coercion helper `getNumberAsInt` consumes them. -/
inductive JSONValue where
  | null
  | bool (b : Bool)
  | num (tok : String)
  | str (s : String)
  | arr (xs : List JSONValue)
  | obj (fields : List (String × JSONValue))

/-- Model of `apierr.APIError` (src/unnamed/part_000): the typed error a
non-2xx response is parsed into.  `details` models the Go
`map[string]any` as an association list. -/
structure APIError where
  status : Int
  code : Int
  message : String
  reason : String
  details : List (String × JSONValue)
  raw : String

/-- Model of the Go error values that flow through the client: an unwrap
chain (`fmt.Errorf("...: %w", e)` is `wrap`) ending in a leaf.  Leaves
are the sentinels the classifier inspects: an `*apierr.APIError`, an
error implementing `interface{ Timeout() bool }` (with the value its
`Timeout()` returns), the four flaky-I/O sentinels, the two context
errors, or anything else. -/
inductive GoError where
  | api (e : APIError)
  | netErr (timeout : Bool)
  | unexpectedEOF
  | eofErr
  | closedPipe
  | econnreset
  | ctxCanceled
  | ctxDeadline
  | other (msg : String)
  | wrap (msg : String) (inner : GoError)

/-- `errors.As(err, &to)` for `to interface{ Timeout() bool }`: walk the
unwrap chain to the first error implementing the interface and report
its `Timeout()` value; `none` when the chain has no such error. -/
def errorsAsTimeout : GoError → Option Bool
  | .netErr b => some b
  | .wrap _ inner => errorsAsTimeout inner
  | _ => none

/-- `errors.As(err, &apiErr)` for `apiErr *apierr.APIError`: first
`APIError` in the unwrap chain, if any. -/
def errorsAsAPIError : GoError → Option APIError
  | .api a => some a
  | .wrap _ inner => errorsAsAPIError inner
  | _ => none

/-- `errors.Is(err, target)` for a sentinel error value: walk the unwrap
chain looking for a leaf satisfying the sentinel test. -/
def errorsIsSentinel (isTarget : GoError → Bool) : GoError → Bool
  | .wrap _ inner => errorsIsSentinel isTarget inner
  | e => isTarget e

/-- The flaky-connection / short-read disjunction of
`apierr.IsRetryable` (src/apierr/retryable.go, lines 21-26):
`errors.Is` against `io.ErrUnexpectedEOF`, `io.EOF`, `io.ErrClosedPipe`
and `syscall.ECONNRESET`. -/
def isFlakyConn (e : GoError) : Bool :=
  errorsIsSentinel (fun l => match l with | .unexpectedEOF => true | _ => false) e
    || errorsIsSentinel (fun l => match l with | .eofErr => true | _ => false) e
    || errorsIsSentinel (fun l => match l with | .closedPipe => true | _ => false) e
    || errorsIsSentinel (fun l => match l with | .econnreset => true | _ => false) e

/-- The status switch of `apierr.IsRetryable`: 408, 425, 429, 500, 502,
503, 504. -/
def retryableStatus (st : Int) : Bool :=
  st == 408 || st == 425 || st == 429 || st == 500 || st == 502 || st == 503 || st == 504

/-- Model of `apierr.IsRetryable` (src/apierr/retryable.go, lines
13-43): a timeout-reporting error in the chain, a flaky-I/O sentinel, or
an `APIError` with one of the retryable statuses. -/
def IsRetryable (e : GoError) : Bool :=
  (errorsAsTimeout e).getD false
    || isFlakyConn e
    || (match errorsAsAPIError e with
        | some a => retryableStatus a.status
        | none => false)

/-- Go int64 wraparound: reduce an unbounded integer to the value the
two's-complement 64-bit arithmetic of the source produces. -/
def wrapInt64 (n : Int) : Int :=
  (n + 9223372036854775808) % 18446744073709551616 - 9223372036854775808

/-- Model of `apierr.JitteredBackoff` (src/apierr/retryable.go, lines
47-54).  Durations are int64 nanoseconds (`time.Duration`), so the
source's `base/2 + delta` is computed with int64 wraparound; `delta` is
the value of `rand.Int63n(int64(base))`, which the caller of the
theorem constrains to `[0, base)`.  For in-range `base` the division
`base/2` itself cannot overflow, and Go's truncating division agrees
with `Int` division on the non-negative operands that reach it. -/
def JitteredBackoff (base delta : Int) : Int :=
  let b := if base ≤ 0 then 300000000 else base
  wrapInt64 (b / 2 + delta)

/-! ## Retry controller: `client.withExpBackoff` and `client.doWithRetry` -/

/-- Outcome of a `withExpBackoff` run (src/client/client.go, lines
412-488): success, the wrapped final error after a non-retryable failure
or retry exhaustion, or the wrapped context error when cancellation
interrupts an inter-attempt sleep. -/
inductive RetryResult where
  | ok
  | failed (e : GoError)
  | cancelled (e : GoError)

/-- The final-error annotation of `withExpBackoff`:
`fmt.Errorf("%s (attempt %d): %w", label, attempt+1, lastErr)` when a
label is set, the bare last error otherwise. -/
def wrapAttempt (label : String) (attempt : Nat) (e : GoError) : GoError :=
  if label = "" then e
  else .wrap (label ++ " (attempt " ++ toString (attempt + 1) ++ ")") e

/-- The cancellation annotation of `withExpBackoff`:
`fmt.Errorf("%s: context: %w", label, ctx.Err())` when a label is set,
the bare context error otherwise. -/
def wrapCtxErr (label : String) (ctxErr : GoError) : GoError :=
  if label = "" then ctxErr else .wrap (label ++ ": context") ctxErr

/-- The ambient state of one `withExpBackoff` invocation: the client's
`MaxRetries` (a Go `int`, possibly negative), the retryability predicate
(already resolved: the source substitutes `apierr.IsRetryable` for a
`nil` argument), the cancellation oracle (`cancel n` says whether
`ctx.Done()` fires before the backoff timer during the sleep that
follows failed attempt `n`), the value of `ctx.Err()`, and the label. -/
structure RetryEnv where
  maxRetries : Int
  isRetryable : GoError → Bool
  cancel : Nat → Bool
  ctxErr : GoError
  label : String

/-- Model of the attempt loop of `client.withExpBackoff`
(src/client/client.go, lines 435-487).  `op attempt` yields the
side-effect trace element for the attempt (the request it sent) paired
with its error, `none` meaning success.  The result is paired with the
list of trace elements, one per invocation of `op`, so the number of
attempts performed is the trace's length.  Backoff durations affect only
timing, not control flow, and are not modelled; the decision structure
(non-retryable or `attempt >= MaxRetries` bails with the wrapped error,
an interrupted sleep bails with the wrapped context error, otherwise the
loop continues with `attempt+1`) follows the source exactly. -/
def expBackoffRun {α : Type} (env : RetryEnv) (op : Nat → α × Option GoError)
    (attempt : Nat) : RetryResult × List α :=
  match op attempt with
  | (a, none) => (.ok, [a])
  | (a, some err) =>
    if h : env.isRetryable err = false ∨ env.maxRetries ≤ (attempt : Int) then
      (.failed (wrapAttempt env.label attempt err), [a])
    else if env.cancel attempt then
      (.cancelled (wrapCtxErr env.label env.ctxErr), [a])
    else
      let r := expBackoffRun env op (attempt + 1)
      (r.1, a :: r.2)
termination_by (env.maxRetries - (attempt : Int)).toNat
decreasing_by
  push_neg at h
  omega

/-- A single HTTP attempt as observable at the transport: the method,
path, buffered body bytes and the two headers `doWithRetry` sets when a
payload is present. -/
structure SentRequest where
  method : String
  path : String
  bodyBytes : Option (List Nat)
  contentType : Option String
  contentLength : Option Nat

/-- The request one attempt of `client.doWithRetry` sends
(src/client/client.go, lines 328-343): when the buffered payload is
non-nil the attempt sends exactly those bytes with
`Content-Type: application/json` and `Content-Length` equal to the
payload length; with no body no such headers are set. -/
def buildAttemptRequest (method path : String) (payload : Option (List Nat)) :
    SentRequest :=
  match payload with
  | some p => ⟨method, path, some p, some "application/json", some p.length⟩
  | none => ⟨method, path, none, none, none⟩

/-- Model of `client.doWithRetry` (src/client/client.go, lines 317-348):
the caller's body reader is drained once into `payload` before any
attempt (`io.ReadAll`), and every attempt rebuilds its request from that
buffer.  `net req attempt` is the network's answer to the attempt.  The
label is `"request"` and the retryability predicate is the `nil`
default, `apierr.IsRetryable`. -/
def doWithRetry (maxRetries : Int) (cancel : Nat → Bool) (ctxErr : GoError)
    (net : SentRequest → Nat → Option GoError) (method path : String)
    (body : Option (List Nat)) : RetryResult × List SentRequest :=
  let payload : Option (List Nat) := body
  expBackoffRun ⟨maxRetries, IsRetryable, cancel, ctxErr, "request"⟩
    (fun attempt =>
      let req := buildAttemptRequest method path payload
      (req, net req attempt)) 0

/-! ## Process poller: `client.PollProcesses` -/

/-- `unicode.IsSpace`, as used by `strings.TrimSpace`. -/
def goIsSpace (c : Char) : Bool :=
  let n := c.toNat
  n == 9 || n == 10 || n == 11 || n == 12 || n == 13 || n == 32
    || n == 0x85 || n == 0xA0 || n == 0x1680
    || (decide (0x2000 ≤ n) && decide (n ≤ 0x200A))
    || n == 0x2028 || n == 0x2029 || n == 0x202F || n == 0x205F || n == 0x3000

/-- Model of Go `strings.TrimSpace`: drop leading and trailing
whitespace. -/
def goTrimSpace (s : String) : String :=
  String.mk (((s.toList.dropWhile goIsSpace).reverse.dropWhile goIsSpace).reverse)

/-- Model of `client.QueuedProcess` (src/client/client.go, lines
43-47). -/
structure QueuedProcess where
  processID : String
  status : String
  downloadURL : String
deriving DecidableEq

/-- The local state of one `PollProcesses` call: the `processMap` (a Go
`map[string]QueuedProcess`, modelled as an association list keyed by
trimmed ID) and the `pending` set (modelled as a duplicate-free list;
Go's randomized map iteration order is immaterial because each round
updates every pending ID independently). -/
structure PollState where
  processMap : List (String × QueuedProcess)
  pending : List String
deriving DecidableEq

/-- `processMap[id]` lookup. -/
def lookupQP (id : String) : List (String × QueuedProcess) → Option QueuedProcess
  | [] => none
  | (k, v) :: rest => if k = id then some v else lookupQP id rest

/-- `processMap[id] = p` map write. -/
def insertQP (id : String) (p : QueuedProcess) :
    List (String × QueuedProcess) → List (String × QueuedProcess)
  | [] => [(id, p)]
  | (k, v) :: rest =>
    if k = id then (k, p) :: rest else (k, v) :: insertQP id p rest

/-- The initialization loop of `PollProcesses` (src/client/client.go,
lines 223-230): trim each ID, drop empties, seed the map with status
`"queued"` and the pending set. -/
def initPoll : List String → PollState → PollState
  | [], st => st
  | id :: rest, st =>
    let t := goTrimSpace id
    if t = "" then initPoll rest st
    else initPoll rest
      { processMap := insertQP t ⟨t, "queued", ""⟩ st.processMap,
        pending := if t ∈ st.pending then st.pending else st.pending ++ [t] }

/-- One pending ID within a round (src/client/client.go, lines 249-270):
a failed fetch is skipped with no error propagation (the source's
unconditional `continue`); a successful fetch updates the map and
removes the ID from pending when the reported status is terminal.
`fetch round id` is the outcome of the single `GET processes/{id}`
request of that round, already converted by `ToQueuedProcess`. -/
def roundStep (fetch : Nat → String → Except GoError QueuedProcess)
    (round : Nat) (id : String) (st : PollState) : PollState :=
  match fetch round id with
  | .error _ => st
  | .ok proc =>
    let st' : PollState := { st with processMap := insertQP id proc st.processMap }
    if proc.status = "finished" ∨ proc.status = "failed"
    then { st' with pending := st'.pending.erase id }
    else st'

/-- One full round: every ID of the pending snapshot is fetched once. -/
def roundGo (fetch : Nat → String → Except GoError QueuedProcess)
    (round : Nat) : List String → PollState → PollState
  | [], st => st
  | id :: rest, st => roundGo fetch round rest (roundStep fetch round id st)

def pollRound (fetch : Nat → String → Except GoError QueuedProcess)
    (round : Nat) (st : PollState) : PollState :=
  roundGo fetch round st.pending st

/-- The round loop of `PollProcesses`.  `fuel` abstracts the wall-clock
ceiling (`PollMaxWait`): it is the number of rounds the budget still
allows, and the loop stops early once pending is empty. -/
def pollLoop (fetch : Nat → String → Except GoError QueuedProcess) :
    Nat → Nat → PollState → PollState
  | 0, _, st => st
  | Nat.succ fuel, round, st =>
    if st.pending = [] then st
    else pollLoop fetch fuel (round + 1) (pollRound fetch round st)

/-- Model of `client.PollProcesses` (src/client/client.go, lines
204-315) without its cancellation path: initialize from the trimmed
IDs, run rounds until pending is empty or the budget runs out, then
rebuild the results by looking the ORIGINAL (untrimmed) caller IDs up
in the map — the source's final loop `processMap[id]` uses the raw
`id` from `processIDs`. -/
def pollProcesses (fetch : Nat → String → Except GoError QueuedProcess)
    (ids : List String) (fuel : Nat) : List QueuedProcess :=
  let st := pollLoop fetch fuel 0 (initPoll ids ⟨[], []⟩)
  ids.filterMap (fun id => lookupQP id st.processMap)

/-- Fetch oracle of the poller's own test
`TestPollProcesses_NonRetryableError_MarksFailedAndContinues`
(src/client/client_test.go, lines 326-366): the status request for `"x"`
always fails with a non-retryable 404 `APIError`, the one for `"y"`
immediately reports `finished`. -/
def fetchNonRetryableX : Nat → String → Except GoError QueuedProcess :=
  fun _ id =>
    if id = "x" then .error (.api ⟨404, 0, "Not Found", "", [], ""⟩)
    else .ok ⟨"y", "finished", ""⟩

/-- Fetch oracle for the trimmed-ID counterexample: the (trimmed) ID
`"a"` finishes immediately; nothing else is ever asked for. -/
def fetchFinishedA : Nat → String → Except GoError QueuedProcess :=
  fun _ id =>
    if id = "a" then .ok ⟨"a", "finished", ""⟩
    else .error (.other "unexpected id")

/-- `pending ⊆ keys(processMap)`: every pending ID has a map entry. -/
def pendingKeysInv (st : PollState) : Prop :=
  ∀ id ∈ st.pending, (lookupQP id st.processMap).isSome = true

/-- Fetch oracle for the spec's duplicate-and-empty example: `"a"`
reports `queued` on its first poll round and `finished` from the second
round on, `"b"` reports `finished` immediately. -/
def fetchSecondPollA : Nat → String → Except GoError QueuedProcess :=
  fun round id =>
    if id = "a" then
      (if round = 0 then .ok ⟨"a", "queued", ""⟩ else .ok ⟨"a", "finished", ""⟩)
    else .ok ⟨"b", "finished", ""⟩

/-! ## Archive extractor: `client.unzipSafe` -/

/-- `listHasPrefix pre s`: `s` starts with `pre` (both as character
lists); the computational core of `strings.HasPrefix`. -/
def listHasPrefix : List Char → List Char → Bool
  | [], _ => true
  | _ :: _, [] => false
  | c :: pre, d :: s => c = d && listHasPrefix pre s

/-- Model of Go `strings.HasPrefix`. -/
def goHasPrefix (s pre : String) : Bool :=
  listHasPrefix pre.toList s.toList

/-- Split a character list on `'/'`, like `strings.Split(s, "/")`. -/
def splitSlash : List Char → List (List Char)
  | [] => [[]]
  | c :: rest =>
    match splitSlash rest with
    | [] => [[c]]
    | s :: ss => if c = '/' then [] :: s :: ss else (c :: s) :: ss

/-- Rejoin segments with `'/'`. -/
def joinSlash : List (List Char) → List Char
  | [] => []
  | [s] => s
  | s :: rest => s ++ '/' :: joinSlash rest

/-- Segment stack of Go `path.Clean`: skip empty and `"."` segments,
let `".."` pop a previous segment (or be dropped at the root of a
rooted path, or pile up at the front of a relative one).  The
accumulator is kept reversed. -/
def cleanSegs (rooted : Bool) : List (List Char) → List (List Char) → List (List Char)
  | [], acc => acc.reverse
  | seg :: rest, acc =>
    if seg = [] ∨ seg = ['.'] then cleanSegs rooted rest acc
    else if seg = ['.', '.'] then
      match acc with
      | [] => cleanSegs rooted rest (if rooted then [] else [['.', '.']])
      | top :: acc' =>
        if top = ['.', '.'] then cleanSegs rooted rest (['.', '.'] :: top :: acc')
        else cleanSegs rooted rest acc'
    else cleanSegs rooted rest (seg :: acc)

/-- Model of Go `path.Clean` (lexical): collapse multiple slashes,
eliminate `.` segments, resolve `..` segments, return `"."` for an
empty result. -/
def goPathClean (p : String) : String :=
  let cs := p.toList
  if cs = [] then "."
  else
    let rooted := listHasPrefix ['/'] cs
    let out := joinSlash (cleanSegs rooted (splitSlash cs) [])
    if rooted then String.mk ('/' :: out)
    else if out = [] then "." else String.mk out

/-- Model of Go `strings.TrimPrefix`.  (The prefix, when present, is
dropped; dropping its character count equals dropping its bytes since
the characters match.) -/
def goTrimPrefixStr (s pre : String) : String :=
  if goHasPrefix s pre then String.mk (s.toList.drop pre.toList.length) else s

/-- Model of Go `filepath.Join` for two elements on a Unix target
(`filepath.Separator` is `'/'`): join the non-empty elements with a
slash, then `Clean`. -/
def goFilepathJoin (a b : String) : String :=
  if a = "" then (if b = "" then "" else goPathClean b)
  else if b = "" then goPathClean a
  else goPathClean (a ++ "/" ++ b)

/-- Model of Go `filepath.Abs` on Unix: an absolute path is `Clean`ed,
a relative one is joined onto the working directory. -/
def goFilepathAbs (cwd p : String) : String :=
  if goHasPrefix p "/" then goPathClean p else goFilepathJoin cwd p

/-- Model of Go `filepath.Dir` on Unix: everything up to and including
the last slash, `Clean`ed (`"."` when there is no slash). -/
def goFilepathDir (p : String) : String :=
  goPathClean (String.mk ((p.toList.reverse.dropWhile (· ≠ '/')).reverse))

/-- One ZIP entry as `unzipSafe` observes it: the stored name, the
declared uncompressed size (`f.UncompressedSize64`), the directory bit
of `f.FileInfo()`, whether the mode has one of the skipped special bits
(symlink/device/named-pipe/socket), the stored permission bits, and the
number of bytes the entry's decompressed stream actually yields (which
a hostile archive can make differ from the declared size). -/
structure ZipEntry where
  name : String
  uncompressedSize64 : Nat
  isDir : Bool
  special : Bool
  perm : Nat
  actualBytes : Nat
deriving DecidableEq

/-- Filesystem effects of an extraction, in order: `os.MkdirAll` and
the streamed write of a regular file (recording how many bytes reach
disk and with what permission bits). -/
inductive FSAction where
  | mkdirAll (path : String)
  | writeFile (path : String) (bytes : Nat) (perm : Nat)
deriving DecidableEq

/-- The aborting errors of `unzipSafe`.  `sizeMismatch` stands for the
error `archive/zip`'s `checksumReader` reports while the streamed copy
drains `f.Open()` whenever the decompressed stream's length differs
from the declared `UncompressedSize64`: `ErrFormat` as soon as delivery
would exceed the declared size (Go ≥ 1.21, which this module requires),
`io.ErrUnexpectedEOF` when the stream ends short of it.  Either way
`io.Copy` returns the error and `unzipSafe` aborts. -/
inductive UnzipErr where
  | tooManyFiles (n : Nat)
  | entryTooBig (name : String) (size : Nat)
  | tooLargeUncompressed (total : Nat)
  | unsafePath (name : String)
  | sizeMismatch (name : String)
deriving DecidableEq

/-- Result of a run of `unzipSafe`: the filesystem actions performed
before returning, and the error if it aborted. -/
structure UnzipOutcome where
  actions : List FSAction
  err : Option UnzipErr
deriving DecidableEq

def maxFiles : Nat := 20000
def maxTotalUnzip : Nat := 2147483648
def maxSingleUnzip : Nat := 536870912

/-- The name normalization of `unzipSafe` (src/client/download.go,
lines 322-325): `path.Clean`, then strip a leading `"/"`, then a
leading `"./"`. -/
def entryRel (name : String) : String :=
  goTrimPrefixStr (goTrimPrefixStr (goPathClean name) "/") "./"

/-- The zip-slip guard of `unzipSafe` (src/client/download.go, lines
331-338): the entry escapes when its resolved absolute path is neither
the destination itself nor strictly below it (string-prefix check on
the cleaned absolute forms). -/
def pathUnsafe (cwd destDir name : String) : Bool :=
  let destAbs := goFilepathAbs cwd destDir
  let targetAbs := goFilepathAbs cwd (goFilepathJoin destDir (entryRel name))
  (targetAbs != destAbs) && !(goHasPrefix targetAbs (destAbs ++ "/"))

/-- Processing of one entry in `unzipSafe`'s loop (src/client/download.go,
lines 315-378): declared-size check, running-total check, name
normalization (entries cleaning to `"."`/`""` are skipped), zip-slip
guard, directory creation, special-file skip, and finally the regular
file write — parent directory on demand, permission fallback to 0644,
and an uncapped `io.Copy` draining `f.Open()`.  That reader
(`archive/zip`'s `checksumReader`) delivers at most the declared
`UncompressedSize64` bytes — so the bytes reaching disk are
`min actualBytes uncompressedSize64` — and reports a `sizeMismatch`
error when the stream's actual length differs from the declared one,
which `io.Copy` propagates and `unzipSafe` returns.  Result: the
entry's filesystem actions, the new running total, and the aborting
error if any. -/
def entryStep (cwd destDir : String) (total : Nat) (f : ZipEntry) :
    List FSAction × Nat × Option UnzipErr :=
  if f.uncompressedSize64 > maxSingleUnzip then
    ([], total, some (.entryTooBig f.name f.uncompressedSize64))
  else
    let total' := total + f.uncompressedSize64
    if total' > maxTotalUnzip then ([], total', some (.tooLargeUncompressed total'))
    else
      let rel := entryRel f.name
      if rel = "." ∨ rel = "" then ([], total', none)
      else
        let targetAbs := goFilepathAbs cwd (goFilepathJoin destDir rel)
        if pathUnsafe cwd destDir f.name then ([], total', some (.unsafePath f.name))
        else if f.isDir then ([.mkdirAll targetAbs], total', none)
        else if f.special then ([], total', none)
        else
          let delivered := min f.actualBytes f.uncompressedSize64
          ([.mkdirAll (goFilepathDir targetAbs),
            .writeFile targetAbs delivered (if f.perm = 0 then 0o644 else f.perm)],
           total',
           if f.actualBytes = f.uncompressedSize64 then none
           else some (.sizeMismatch f.name))

/-- The entry loop: actions accumulate; the first failing entry aborts
with the actions performed up to and including that entry's partial
work (no rollback). -/
def unzipGo (cwd destDir : String) :
    List ZipEntry → Nat → List FSAction → UnzipOutcome
  | [], _, acc => ⟨acc, none⟩
  | f :: rest, total, acc =>
    match entryStep cwd destDir total f with
    | (acts, total', none) => unzipGo cwd destDir rest total' (acc ++ acts)
    | (acts, _, some e) => ⟨acc ++ acts, some e⟩

/-- Model of `client.unzipSafe` (src/client/download.go, lines
287-380): `os.MkdirAll(destDir)` happens before the entry-count check
and the loop. -/
def unzipSafe (cwd destDir : String) (entries : List ZipEntry) : UnzipOutcome :=
  if entries.length > maxFiles then
    ⟨[.mkdirAll destDir], some (.tooManyFiles entries.length)⟩
  else unzipGo cwd destDir entries 0 [.mkdirAll destDir]

/-! ## Error-body parser: `apierr.Parse` -/

/-- Model of Go `net/http.StatusText`: the full table of status phrases
`net/http` defines; any other status maps to `""`, as in Go. -/
def statusText (status : Int) : String :=
  if status = 100 then "Continue"
  else if status = 101 then "Switching Protocols"
  else if status = 102 then "Processing"
  else if status = 103 then "Early Hints"
  else if status = 200 then "OK"
  else if status = 201 then "Created"
  else if status = 202 then "Accepted"
  else if status = 203 then "Non-Authoritative Information"
  else if status = 204 then "No Content"
  else if status = 205 then "Reset Content"
  else if status = 206 then "Partial Content"
  else if status = 207 then "Multi-Status"
  else if status = 208 then "Already Reported"
  else if status = 226 then "IM Used"
  else if status = 300 then "Multiple Choices"
  else if status = 301 then "Moved Permanently"
  else if status = 302 then "Found"
  else if status = 303 then "See Other"
  else if status = 304 then "Not Modified"
  else if status = 305 then "Use Proxy"
  else if status = 307 then "Temporary Redirect"
  else if status = 308 then "Permanent Redirect"
  else if status = 400 then "Bad Request"
  else if status = 401 then "Unauthorized"
  else if status = 402 then "Payment Required"
  else if status = 403 then "Forbidden"
  else if status = 404 then "Not Found"
  else if status = 405 then "Method Not Allowed"
  else if status = 406 then "Not Acceptable"
  else if status = 407 then "Proxy Authentication Required"
  else if status = 408 then "Request Timeout"
  else if status = 409 then "Conflict"
  else if status = 410 then "Gone"
  else if status = 411 then "Length Required"
  else if status = 412 then "Precondition Failed"
  else if status = 413 then "Request Entity Too Large"
  else if status = 414 then "Request URI Too Long"
  else if status = 415 then "Unsupported Media Type"
  else if status = 416 then "Requested Range Not Satisfiable"
  else if status = 417 then "Expectation Failed"
  else if status = 418 then "I\x27m a teapot"
  else if status = 421 then "Misdirected Request"
  else if status = 422 then "Unprocessable Entity"
  else if status = 423 then "Locked"
  else if status = 424 then "Failed Dependency"
  else if status = 425 then "Too Early"
  else if status = 426 then "Upgrade Required"
  else if status = 428 then "Precondition Required"
  else if status = 429 then "Too Many Requests"
  else if status = 431 then "Request Header Fields Too Large"
  else if status = 451 then "Unavailable For Legal Reasons"
  else if status = 500 then "Internal Server Error"
  else if status = 501 then "Not Implemented"
  else if status = 502 then "Bad Gateway"
  else if status = 503 then "Service Unavailable"
  else if status = 504 then "Gateway Timeout"
  else if status = 505 then "HTTP Version Not Supported"
  else if status = 506 then "Variant Also Negotiates"
  else if status = 507 then "Insufficient Storage"
  else if status = 508 then "Loop Detected"
  else if status = 510 then "Not Extended"
  else if status = 511 then "Network Authentication Required"
  else ""

/-- Decimal digits to a number; `none` on the first non-digit. -/
def parseDigits : List Char → Nat → Option Nat
  | [], acc => some acc
  | c :: rest, acc =>
    if c.isDigit then parseDigits rest (acc * 10 + (c.toNat - 48)) else none

/-- Model of Go `strconv.Atoi`: optional sign then at least one digit,
nothing else. -/
def goAtoi (s : String) : Option Int :=
  match s.toList with
  | [] => none
  | '+' :: rest =>
    (match rest with
     | [] => none
     | _ => (parseDigits rest 0).map Int.ofNat)
  | '-' :: rest =>
    (match rest with
     | [] => none
     | _ => (parseDigits rest 0).map (fun n => -(n : Int)))
  | l => (parseDigits l 0).map Int.ofNat

/-- `m[key]` on a decoded JSON object. -/
def jsonLookup (m : List (String × JSONValue)) (key : String) : Option JSONValue :=
  match m with
  | [] => none
  | (k, v) :: rest => if k = key then some v else jsonLookup rest key

/-- Model of the source's `getString`: the value under `key` when it is
a string. -/
def getString (m : List (String × JSONValue)) (key : String) : Option String :=
  match jsonLookup m key with
  | some (.str s) => some s
  | _ => none

def getStringOr (m : List (String × JSONValue)) (key dflt : String) : String :=
  (getString m key).getD dflt

/-- Model of the source's `getNumberAsInt`: lenient integer coercion.
A JSON number (carried as its decimal token) goes through `Atoi` (the
source's `json.Number` branch); a string goes through `Atoi` after
trimming; anything else fails. -/
def getNumberAsInt (m : List (String × JSONValue)) (key : String) : Option Int :=
  match jsonLookup m key with
  | some (.num tok) => goAtoi tok
  | some (.str s) => goAtoi (goTrimSpace s)
  | _ => none

/-- The source's `coalesce` at its two-argument uses: first non-empty
string. -/
def coalesce (a b : String) : String :=
  if a = "" then b else a

/-- Model of the source's `pickDetails` (also the inline details rule of
the nested-error shape): the `details` value when it is an object,
`{"details": v}` when present but not an object, otherwise a stub
reason. -/
def pickDetails (obj : List (String × JSONValue)) : List (String × JSONValue) :=
  match jsonLookup obj "details" with
  | some (.obj d) => d
  | some v => [("details", v)]
  | none => [("reason", .str "server error without details")]

/-- Shape (a): top-level `{message: string, statusCode: number|string,
error: string}`. -/
def parseShapeTop (obj : List (String × JSONValue)) (status : Int)
    (trimmed : String) : Option APIError :=
  match getString obj "message" with
  | none => none
  | some msg =>
    match getNumberAsInt obj "statusCode" with
    | none => none
    | some sc =>
      match getString obj "error" with
      | none => none
      | some reason => some ⟨status, sc, msg, reason, obj, trimmed⟩

/-- Shape (b): nested `{error: {message, code?, details?}}`. -/
def parseShapeNested (obj : List (String × JSONValue)) (status : Int)
    (trimmed : String) : Option APIError :=
  match jsonLookup obj "error" with
  | some (.obj errFields) =>
    let msg := (getString errFields "message").getD ""
    let code := (getNumberAsInt errFields "code").getD status
    some ⟨status, code, coalesce msg (statusText status), "",
          pickDetails errFields, trimmed⟩
  | _ => none

/-- Shape (c): alt top-level `{message: string, code?|errorCode?,
details?}`. -/
def parseShapeAlt (obj : List (String × JSONValue)) (status : Int)
    (trimmed : String) : Option APIError :=
  match getString obj "message" with
  | none => none
  | some msg =>
    match getNumberAsInt obj "code" with
    | some code => some ⟨status, code, msg, "", pickDetails obj, trimmed⟩
    | none =>
      match getNumberAsInt obj "errorCode" with
      | some code => some ⟨status, code, msg, "", pickDetails obj, trimmed⟩
      | none => none

/-- The shape dispatch of `apierr.Parse` after a successful JSON decode
(src/unnamed/part_000, lines 60-134): shapes tried in priority order,
first match wins, with the documented fallback.  The Go
`obj, _ := anyJSON.(map[string]any)` type assertion yields the empty
map for non-object values. -/
def parseShapes (v : JSONValue) (status : Int) (trimmed : String) : APIError :=
  let obj : List (String × JSONValue) := match v with | .obj fs => fs | _ => []
  match parseShapeTop obj status trimmed with
  | some r => r
  | none =>
    match parseShapeNested obj status trimmed with
    | some r => r
    | none =>
      match parseShapeAlt obj status trimmed with
      | some r => r
      | none =>
        ⟨status, 0,
         coalesce (getStringOr obj "message" "") (statusText status),
         coalesce ((getString obj "error").getD "") "unhandled error format",
         obj, trimmed⟩

/-- Model of `apierr.Parse` (src/unnamed/part_000, lines 33-135).  The
external `encoding/json` decoder is an explicit parameter `decode`
(returning either the decoder's error message or the decoded value);
everything else is translated from the source.  The function is total
and deterministic by construction: every body/status/decoder outcome
maps to exactly one `APIError`. -/
def goParse (decode : String → Except String JSONValue) (slurp : String)
    (status : Int) : APIError :=
  let trimmed := goTrimSpace slurp
  if trimmed.toList = []
      ∨ (trimmed.toList.head? ≠ some '{' ∧ trimmed.toList.head? ≠ some '[') then
    ⟨status, 0, statusText status, "non-json error body", [], trimmed⟩
  else
    match decode slurp with
    | .error emsg =>
      ⟨status, 0, statusText status, "invalid json in error body",
       [("unmarshal_error", .str emsg)], trimmed⟩
    | .ok v => parseShapes v status trimmed

/-! ## Theorems -/

theorem IsRetryable_wrap (m : String) (e : GoError) :
    IsRetryable (.wrap m e) = IsRetryable e := by
  simp [IsRetryable, errorsAsTimeout, errorsAsAPIError, isFlakyConn, errorsIsSentinel]

/-- C2: `IsRetryable(err)` is true whenever the error chain contains an
`APIError` whose status is one of {408, 425, 429, 500, 502, 503, 504},
wrapped or unwrapped; and it is false for an `APIError` with any other
4xx status when the error additionally satisfies no timeout and no
flaky-I/O condition. -/
theorem isRetryable_apiError_status (e : GoError) (a : APIError)
    (h : errorsAsAPIError e = some a) :
    (a.status ∈ ([408, 425, 429, 500, 502, 503, 504] : List Int) →
      IsRetryable e = true)
    ∧ (400 ≤ a.status → a.status < 500 →
       a.status ∉ ([408, 425, 429, 500, 502, 503, 504] : List Int) →
       errorsAsTimeout e ≠ some true → isFlakyConn e = false →
       IsRetryable e = false) := by
  constructor
  · intro hmem
    have hst : retryableStatus a.status = true := by
      simp only [List.mem_cons, List.not_mem_nil, or_false] at hmem
      rcases hmem with h' | h' | h' | h' | h' | h' | h' <;>
        simp [retryableStatus, h']
    induction e with
    | wrap m inner ih =>
        rw [IsRetryable_wrap]
        exact ih (by simpa [errorsAsAPIError] using h)
    | api a' =>
        simp only [errorsAsAPIError, Option.some.injEq] at h
        subst h
        simp [IsRetryable, errorsAsAPIError, hst]
    | _ => simp [errorsAsAPIError] at h
  · intro _ _ hnotmem hto hflaky
    have hst : retryableStatus a.status = false := by
      by_contra hcon
      have htrue : retryableStatus a.status = true := by
        cases hcmp : retryableStatus a.status with
        | true => rfl
        | false => exact absurd hcmp hcon
      apply hnotmem
      simp only [retryableStatus, Bool.or_eq_true, beq_iff_eq] at htrue
      simp only [List.mem_cons, List.not_mem_nil, or_false]
      tauto
    have hto' : (errorsAsTimeout e).getD false = false := by
      cases hcase : errorsAsTimeout e with
      | none => rfl
      | some b =>
          cases b with
          | true => exact absurd hcase hto
          | false => rfl
    simp [IsRetryable, hto', hflaky, h, hst]

theorem isRetryable_apiError_status_witness :
    IsRetryable (.wrap "fetch bundle"
      (.api ⟨429, 1234, "rate limited", "", [], ""⟩)) = true
    ∧ IsRetryable (.api ⟨404, 0, "Not Found", "", [], ""⟩) = false := by
  refine ⟨(isRetryable_apiError_status
      (.wrap "fetch bundle" (.api ⟨429, 1234, "rate limited", "", [], ""⟩))
      ⟨429, 1234, "rate limited", "", [], ""⟩ rfl).1 (by decide), ?_⟩
  exact (isRetryable_apiError_status (.api ⟨404, 0, "Not Found", "", [], ""⟩)
      ⟨404, 0, "Not Found", "", [], ""⟩ rfl).2
    (by decide) (by decide) (by decide) (by decide) (by decide)

theorem wrapInt64_eq_self (n : Int) (h1 : -9223372036854775808 ≤ n)
    (h2 : n ≤ 9223372036854775807) : wrapInt64 n = n := by
  unfold wrapInt64
  omega

/-- C6 counterexample: the claim quantifies over every `base > 0`, but
at `base = 2^63 - 1` (a positive `time.Duration`) with the in-range
delta `2^63 - 2`, Go's int64 sum `base/2 + delta` wraps negative, so
the result lies below the claimed lower bound `base/2`. -/
theorem jitteredBackoff_overflow_counterexample :
    (0 : Int) < 9223372036854775807
    ∧ (0 : Int) ≤ 9223372036854775806
    ∧ (9223372036854775806 : Int) < 9223372036854775807
    ∧ JitteredBackoff 9223372036854775807 9223372036854775806
        = -4611686018427387907
    ∧ ¬ ((9223372036854775807 : Int) / 2
          ≤ JitteredBackoff 9223372036854775807 9223372036854775806) := by
  refine ⟨by norm_num, by norm_num, by norm_num, ?_, ?_⟩
  · unfold JitteredBackoff wrapInt64
    norm_num
  · unfold JitteredBackoff wrapInt64
    norm_num

/-- C6 (amended): for `base > 0`, `JitteredBackoff(base)` lies in
`[base/2, base/2 + base)` given the jitter delta `rand.Int63n(base)`
produces (any value in `[0, base)`), PROVIDED the int64 sum
`base/2 + delta` does not overflow (`base/2 + delta ≤ 2^63 - 1`, which
holds for every realistic duration, e.g. whenever
`base ≤ 6148914691236517204` ns ≈ 195 years); for a larger base the
sum wraps negative and escapes the interval.  For `base ≤ 0` the
computation is exactly the one for a 300ms base (which cannot
overflow), so the result lies in `[150ms, 450ms)`. -/
theorem jitteredBackoff_range (base delta : Int) :
    (0 < base → 0 ≤ delta → delta < base →
      base / 2 + delta ≤ 9223372036854775807 →
      base / 2 ≤ JitteredBackoff base delta
      ∧ JitteredBackoff base delta < base / 2 + base)
    ∧ (base ≤ 0 → 0 ≤ delta → delta < 300000000 →
      JitteredBackoff base delta = JitteredBackoff 300000000 delta
      ∧ 150000000 ≤ JitteredBackoff base delta
      ∧ JitteredBackoff base delta < 450000000) := by
  constructor
  · intro hpos hlo hhi hcap
    have hb : ¬ base ≤ 0 := by omega
    simp only [JitteredBackoff, if_neg hb]
    rw [wrapInt64_eq_self (base / 2 + delta) (by omega) hcap]
    omega
  · intro hneg hlo hhi
    have hb : ¬ (300000000 : Int) ≤ 0 := by norm_num
    simp only [JitteredBackoff, if_pos hneg, if_neg hb]
    rw [wrapInt64_eq_self ((300000000 : Int) / 2 + delta) (by omega) (by omega)]
    exact ⟨trivial, by omega, by omega⟩

theorem jitteredBackoff_range_witness :
    ((1000 : Int) / 2 ≤ JitteredBackoff 1000 250
      ∧ JitteredBackoff 1000 250 < 1000 / 2 + 1000)
    ∧ (JitteredBackoff (-5) 7 = JitteredBackoff 300000000 7
      ∧ 150000000 ≤ JitteredBackoff (-5) 7
      ∧ JitteredBackoff (-5) 7 < 450000000) :=
  ⟨(jitteredBackoff_range 1000 250).1 (by decide) (by decide) (by decide)
      (by norm_num),
   (jitteredBackoff_range (-5) 7).2 (by decide) (by decide) (by decide)⟩

theorem expBackoffRun_ok {α : Type} (env : RetryEnv)
    (op : Nat → α × Option GoError) (attempt : Nat) (a : α)
    (h : op attempt = (a, none)) :
    expBackoffRun env op attempt = (.ok, [a]) := by
  rw [expBackoffRun, h]

theorem expBackoffRun_length_le {α : Type} (env : RetryEnv)
    (op : Nat → α × Option GoError) (attempt : Nat) :
    ((expBackoffRun env op attempt).2.length : Int)
      ≤ max (env.maxRetries - attempt + 1) 1 := by
  induction attempt using expBackoffRun.induct env op with
  | case1 n a hn => rw [expBackoffRun, hn]; simp
  | case2 n a err hn hbail => rw [expBackoffRun, hn]; simp [dif_pos hbail]
  | case3 n a err hn hbail hcancel =>
      rw [expBackoffRun, hn]
      simp only [dif_neg hbail, if_pos hcancel]
      simp
  | case4 n a err hn hbail hcancel ih =>
      rw [expBackoffRun, hn]
      simp only [dif_neg hbail, if_neg hcancel, List.length_cons]
      push_neg at hbail
      push_cast at ih ⊢
      omega

theorem expBackoffRun_trace_const {α : Type} (env : RetryEnv)
    (op : Nat → α × Option GoError) (r : α) (hconst : ∀ k, (op k).1 = r)
    (attempt : Nat) :
    ∀ x ∈ (expBackoffRun env op attempt).2, x = r := by
  induction attempt using expBackoffRun.induct env op with
  | case1 n a hn =>
      rw [expBackoffRun, hn]
      have har : a = r := by have := hconst n; rw [hn] at this; exact this
      simpa using har
  | case2 n a err hn hbail =>
      rw [expBackoffRun, hn]
      have har : a = r := by have := hconst n; rw [hn] at this; exact this
      simp only [dif_pos hbail]
      simpa using har
  | case3 n a err hn hbail hcancel =>
      rw [expBackoffRun, hn]
      have har : a = r := by have := hconst n; rw [hn] at this; exact this
      simp only [dif_neg hbail, if_pos hcancel]
      simpa using har
  | case4 n a err hn hbail hcancel ih =>
      rw [expBackoffRun, hn]
      have har : a = r := by have := hconst n; rw [hn] at this; exact this
      simp only [dif_neg hbail, if_neg hcancel, List.mem_cons]
      rintro x (hx | hx)
      · rw [hx]; exact har
      · exact ih x hx

/-- C3: `withExpBackoff` runs the operation with attempt starting at 0;
a successful attempt returns `nil` immediately with no further
invocations; an attempt that fails non-retryably or with
`attempt >= MaxRetries` returns the last error wrapped with the label
and the human-readable total attempt count (`attempt+1`); and, for a
non-negative `MaxRetries` (the data-model invariant), the operation is
invoked at most `MaxRetries + 1` times in total. -/
theorem withExpBackoff_attempt_contract :
    (∀ (α : Type) (env : RetryEnv) (op : Nat → α × Option GoError)
       (attempt : Nat) (a : α),
     op attempt = (a, none) → expBackoffRun env op attempt = (.ok, [a]))
    ∧ (∀ (α : Type) (env : RetryEnv) (op : Nat → α × Option GoError)
         (attempt : Nat) (a : α) (err : GoError),
       op attempt = (a, some err) →
       env.isRetryable err = false ∨ env.maxRetries ≤ (attempt : Int) →
       expBackoffRun env op attempt
         = (.failed (wrapAttempt env.label attempt err), [a]))
    ∧ (∀ (α : Type) (env : RetryEnv) (op : Nat → α × Option GoError),
       0 ≤ env.maxRetries →
       ((expBackoffRun env op 0).2.length : Int) ≤ env.maxRetries + 1) := by
  refine ⟨fun α env op attempt a h => expBackoffRun_ok env op attempt a h,
    fun α env op attempt a err h hbail => ?_, fun α env op hnn => ?_⟩
  · rw [expBackoffRun, h]
    simp [dif_pos hbail]
  · have := expBackoffRun_length_le env op 0
    have hmax : max (env.maxRetries - (0 : Nat) + 1) 1 = env.maxRetries + 1 := by
      push_cast
      omega
    rw [hmax] at this
    exact this

theorem withExpBackoff_attempt_contract_witness :
    expBackoffRun ⟨3, IsRetryable, fun _ => false, .ctxCanceled, "request"⟩
        (fun _ => ((), none)) 0 = (.ok, [()])
    ∧ expBackoffRun ⟨3, IsRetryable, fun _ => false, .ctxCanceled, "download"⟩
        (fun _ => ((), some (.api ⟨404, 0, "Not Found", "", [], ""⟩))) 0
      = (.failed (.wrap "download (attempt 1)"
          (.api ⟨404, 0, "Not Found", "", [], ""⟩)), [()])
    ∧ ((expBackoffRun ⟨3, IsRetryable, fun _ => false, .ctxCanceled, "request"⟩
        (fun _ => ((), none)) 0).2.length : Int) ≤ 3 + 1 := by
  refine ⟨withExpBackoff_attempt_contract.1 Unit _ _ 0 () rfl,
    ?_, withExpBackoff_attempt_contract.2.2 Unit
      ⟨3, IsRetryable, fun _ => false, .ctxCanceled, "request"⟩ _ (by decide)⟩
  have h := withExpBackoff_attempt_contract.2.1 Unit
    ⟨3, IsRetryable, fun _ => false, .ctxCanceled, "download"⟩
    (fun _ => ((), some (.api ⟨404, 0, "Not Found", "", [], ""⟩))) 0 ()
    (.api ⟨404, 0, "Not Found", "", [], ""⟩) rfl
    (Or.inl (by decide))
  simpa [wrapAttempt] using h

/-- C9: whenever the cancellation signal fires before the backoff sleep
that follows a retryable failure completes (`env.cancel attempt`), the
function returns immediately with the context error wrapped with the
label, performing no further attempt: the trace from that attempt on is
the single failed attempt. -/
theorem withExpBackoff_sleep_interruptible {α : Type} (env : RetryEnv)
    (op : Nat → α × Option GoError) (attempt : Nat) (a : α) (err : GoError)
    (h : op attempt = (a, some err))
    (hretry : env.isRetryable err = true)
    (hlt : (attempt : Int) < env.maxRetries)
    (hcancel : env.cancel attempt = true) :
    expBackoffRun env op attempt
      = (.cancelled (wrapCtxErr env.label env.ctxErr), [a]) := by
  rw [expBackoffRun, h]
  have hbail : ¬ (env.isRetryable err = false ∨ env.maxRetries ≤ (attempt : Int)) := by
    push_neg
    exact ⟨by simp [hretry], by omega⟩
  simp [dif_neg hbail, if_pos hcancel]

theorem withExpBackoff_sleep_interruptible_witness :
    expBackoffRun ⟨3, IsRetryable, fun _ => true, .ctxCanceled, "download"⟩
        (fun _ => ((), some (.api ⟨503, 0, "", "", [], ""⟩))) 0
      = (.cancelled (.wrap "download: context" .ctxCanceled), [()]) := by
  have h := withExpBackoff_sleep_interruptible
    ⟨3, IsRetryable, fun _ => true, .ctxCanceled, "download"⟩
    (fun _ => ((), some (.api ⟨503, 0, "", "", [], ""⟩))) 0 ()
    (.api ⟨503, 0, "", "", [], ""⟩) rfl (by decide) (by decide) rfl
  simpa [wrapCtxErr] using h

/-- C10: with a non-nil request body, the reader is buffered exactly
once before the first attempt, and every attempt (first and retries)
sends the same buffered payload with `Content-Type: application/json`
and `Content-Length` equal to the payload length: every request in the
trace of a `doWithRetry` run equals the request built from the buffer. -/
theorem doWithRetry_replays_buffered_body (maxRetries : Int)
    (cancel : Nat → Bool) (ctxErr : GoError)
    (net : SentRequest → Nat → Option GoError) (method path : String)
    (payload : List Nat) :
    ∀ req ∈ (doWithRetry maxRetries cancel ctxErr net method path
        (some payload)).2,
      req = ⟨method, path, some payload, some "application/json",
             some payload.length⟩ := by
  intro req hmem
  unfold doWithRetry at hmem
  dsimp only at hmem
  exact expBackoffRun_trace_const _ _
    ⟨method, path, some payload, some "application/json", some payload.length⟩
    (fun k => rfl) 0 req hmem

theorem doWithRetry_replays_buffered_body_witness :
    (⟨"POST", "projects/p/files/upload", some [123, 10],
      some "application/json", some 2⟩ : SentRequest)
      = ⟨"POST", "projects/p/files/upload", some [123, 10],
         some "application/json", some 2⟩ := by
  have hrun : doWithRetry 3 (fun _ => false) .ctxCanceled (fun _ _ => none)
      "POST" "projects/p/files/upload" (some [123, 10])
      = (.ok, [⟨"POST", "projects/p/files/upload", some [123, 10],
                some "application/json", some 2⟩]) := by
    unfold doWithRetry
    exact expBackoffRun_ok _ _ 0 _ rfl
  exact doWithRetry_replays_buffered_body 3 (fun _ => false) .ctxCanceled
    (fun _ _ => none) "POST" "projects/p/files/upload" [123, 10]
    ⟨"POST", "projects/p/files/upload", some [123, 10],
     some "application/json", some 2⟩ (by rw [hrun]; simp)

/-- C4 (code bug): the poll loop's error handling is an unconditional
`continue`, so an ID whose status fetch keeps failing with a
non-retryable 404 `APIError` is NOT marked `"failed"` and NOT removed
from the pending set — it stays `"queued"` and pending until the budget
runs out, while its sibling is still polled to completion.  The
repository's own test (client_test.go:326) expects `"x"` to come back
`"failed"`. -/
theorem pollProcesses_nonretryable_fetch_not_marked_failed :
    IsRetryable (.api ⟨404, 0, "Not Found", "", [], ""⟩) = false
    ∧ pollProcesses fetchNonRetryableX ["x", "y"] 3
      = [⟨"x", "queued", ""⟩, ⟨"y", "finished", ""⟩]
    ∧ (pollLoop fetchNonRetryableX 3 0 (initPoll ["x", "y"] ⟨[], []⟩)).pending
      = ["x"] := by
  decide

/-- C7 counterexample: the input `[" a"]` contains one ID occurrence
that is non-empty after trimming, so the claim demands one output
entry; the code polls the trimmed ID `"a"` to completion but the final
results loop looks the RAW `" a"` up in the map keyed by trimmed IDs,
finds nothing, and returns an empty result. -/
theorem pollProcesses_trimmed_occurrence_dropped :
    pollProcesses fetchFinishedA [" a"] 3 = []
    ∧ (([" a"].filter (fun id => goTrimSpace id ≠ "")).length = 1) := by
  decide

theorem lookupQP_insert_isSome (k x : String) (v : QueuedProcess)
    (m : List (String × QueuedProcess)) :
    (lookupQP x (insertQP k v m)).isSome = true
      ↔ ((lookupQP x m).isSome = true ∨ x = k) := by
  induction m with
  | nil =>
      simp only [insertQP, lookupQP]
      by_cases h : k = x
      · simp [h]
      · have h' : ¬ x = k := fun he => h he.symm
        simp [h, h']
  | cons kv rest ih =>
      obtain ⟨k', v'⟩ := kv
      simp only [insertQP]
      by_cases hk : k' = k
      · subst hk
        rw [if_pos rfl]
        simp only [lookupQP]
        by_cases hx : k' = x
        · simp [hx]
        · have hx' : ¬ x = k' := fun he => hx he.symm
          simp [hx, hx']
      · simp only [if_neg hk, lookupQP]
        by_cases hx : k' = x
        · simp [hx]
        · simp only [if_neg hx]
          exact ih

theorem roundStep_keys (fetch : Nat → String → Except GoError QueuedProcess)
    (round : Nat) (id : String) (st : PollState)
    (h : (lookupQP id st.processMap).isSome = true) (x : String) :
    (lookupQP x (roundStep fetch round id st).processMap).isSome
      = (lookupQP x st.processMap).isSome := by
  have hins : ∀ (proc : QueuedProcess),
      (lookupQP x (insertQP id proc st.processMap)).isSome
        = (lookupQP x st.processMap).isSome := by
    intro proc
    by_cases hx : x = id
    · subst hx
      rw [Bool.eq_iff_iff, lookupQP_insert_isSome]
      simp [h]
    · rw [Bool.eq_iff_iff, lookupQP_insert_isSome]
      simp [hx]
  unfold roundStep
  cases fetch round id with
  | error e => rfl
  | ok proc =>
      dsimp only
      split
      · exact hins proc
      · exact hins proc

theorem roundStep_inv (fetch : Nat → String → Except GoError QueuedProcess)
    (round : Nat) (id : String) (st : PollState)
    (h : (lookupQP id st.processMap).isSome = true)
    (hinv : pendingKeysInv st) :
    pendingKeysInv (roundStep fetch round id st) := by
  intro p hp
  rw [roundStep_keys fetch round id st h p]
  apply hinv
  revert hp
  unfold roundStep
  cases fetch round id with
  | error e => exact fun hp => hp
  | ok proc =>
      dsimp only
      split
      · intro hp
        exact List.mem_of_mem_erase hp
      · exact fun hp => hp

theorem roundGo_keys (fetch : Nat → String → Except GoError QueuedProcess)
    (round : Nat) : ∀ (l : List String) (st : PollState),
    (∀ id ∈ l, (lookupQP id st.processMap).isSome = true) →
    pendingKeysInv st →
    (pendingKeysInv (roundGo fetch round l st)
      ∧ ∀ x, (lookupQP x (roundGo fetch round l st).processMap).isSome
          = (lookupQP x st.processMap).isSome) := by
  intro l
  induction l with
  | nil => intro st _ hinv; exact ⟨hinv, fun _ => rfl⟩
  | cons id rest ih =>
      intro st hl hinv
      have hid : (lookupQP id st.processMap).isSome = true :=
        hl id (List.mem_cons_self id rest)
      have hkeys := roundStep_keys fetch round id st hid
      have hinv' := roundStep_inv fetch round id st hid hinv
      have hrest : ∀ id' ∈ rest, (lookupQP id' (roundStep fetch round id st).processMap).isSome = true := by
        intro id' hid'
        rw [hkeys id']
        exact hl id' (List.mem_cons_of_mem id hid')
      obtain ⟨h1, h2⟩ := ih (roundStep fetch round id st) hrest hinv'
      exact ⟨h1, fun x => (h2 x).trans (hkeys x)⟩

theorem pollLoop_keys (fetch : Nat → String → Except GoError QueuedProcess) :
    ∀ (fuel round : Nat) (st : PollState), pendingKeysInv st →
    ∀ x, (lookupQP x (pollLoop fetch fuel round st).processMap).isSome
        = (lookupQP x st.processMap).isSome := by
  intro fuel
  induction fuel with
  | zero => intro round st _ x; rfl
  | succ fuel ih =>
      intro round st hinv x
      unfold pollLoop
      split
      · rfl
      · have hround := roundGo_keys fetch round st.pending st hinv hinv
        exact (ih (round + 1) (pollRound fetch round st) hround.1 x).trans
          (hround.2 x)

theorem initPoll_keys : ∀ (ids : List String) (st : PollState) (x : String),
    (lookupQP x (initPoll ids st).processMap).isSome = true
      ↔ ((lookupQP x st.processMap).isSome = true
          ∨ ∃ id ∈ ids, goTrimSpace id = x ∧ x ≠ "") := by
  intro ids
  induction ids with
  | nil => intro st x; simp [initPoll]
  | cons id rest ih =>
      intro st x
      unfold initPoll
      by_cases ht : goTrimSpace id = ""
      · rw [if_pos ht, ih]
        constructor
        · rintro (h | ⟨w, hw, hwx, hne⟩)
          · exact Or.inl h
          · exact Or.inr ⟨w, List.mem_cons_of_mem id hw, hwx, hne⟩
        · rintro (h | ⟨w, hw, hwx, hne⟩)
          · exact Or.inl h
          · rcases List.mem_cons.mp hw with hw' | hw'
            · subst hw'
              rw [ht] at hwx
              exact absurd hwx.symm hne
            · exact Or.inr ⟨w, hw', hwx, hne⟩
      · rw [if_neg ht, ih]
        simp only [lookupQP_insert_isSome]
        constructor
        · rintro ((h | hxt) | ⟨w, hw, hwx, hne⟩)
          · exact Or.inl h
          · subst hxt
            exact Or.inr ⟨id, List.mem_cons_self id rest, rfl, ht⟩
          · exact Or.inr ⟨w, List.mem_cons_of_mem id hw, hwx, hne⟩
        · rintro (h | ⟨w, hw, hwx, hne⟩)
          · exact Or.inl (Or.inl h)
          · rcases List.mem_cons.mp hw with hw' | hw'
            · subst hw'
              exact Or.inl (Or.inr hwx.symm)
            · exact Or.inr ⟨w, hw', hwx, hne⟩

theorem initPoll_inv : ∀ (ids : List String) (st : PollState),
    pendingKeysInv st → pendingKeysInv (initPoll ids st) := by
  intro ids
  induction ids with
  | nil => intro st h; exact h
  | cons id rest ih =>
      intro st hinv
      unfold initPoll
      by_cases ht : goTrimSpace id = ""
      · rw [if_pos ht]
        exact ih st hinv
      · rw [if_neg ht]
        apply ih
        intro p hp
        dsimp only at hp
        rw [lookupQP_insert_isSome]
        by_cases hpt : p = goTrimSpace id
        · exact Or.inr hpt
        · left
          apply hinv
          by_cases hmem : goTrimSpace id ∈ st.pending
          · rwa [if_pos hmem] at hp
          · rw [if_neg hmem] at hp
            rcases List.mem_append.mp hp with h' | h'
            · exact h'
            · exact absurd (List.mem_singleton.mp h') hpt

/-- C7 (amended): the output has one `QueuedProcess` per original ID
occurrence whose RAW string is itself a tracked key — i.e. equals the
trim of some non-empty input ID (in particular every occurrence that is
already trimmed); occurrences that required trimming are polled under
the trimmed name but omitted from the output.  Duplicates each appear,
in original caller order, and empty/whitespace-only IDs are dropped: the
example `["a","","a","b","a"]` yields exactly `a,a,b,a`, all finished.
Formally: the output is the input list filtered-mapped through a raw-ID
map lookup, and the map's key set is exactly the set of non-empty
trimmed input IDs. -/
theorem pollProcesses_output_occurrences :
    (pollProcesses fetchSecondPollA ["a", "", "a", "b", "a"] 3
      = [⟨"a", "finished", ""⟩, ⟨"a", "finished", ""⟩,
         ⟨"b", "finished", ""⟩, ⟨"a", "finished", ""⟩])
    ∧ (∀ (fetch : Nat → String → Except GoError QueuedProcess)
         (ids : List String) (fuel : Nat),
        pollProcesses fetch ids fuel
          = ids.filterMap (fun id =>
              lookupQP id (pollLoop fetch fuel 0 (initPoll ids ⟨[], []⟩)).processMap))
    ∧ (∀ (fetch : Nat → String → Except GoError QueuedProcess)
         (ids : List String) (fuel : Nat) (x : String),
        (lookupQP x
            (pollLoop fetch fuel 0 (initPoll ids ⟨[], []⟩)).processMap).isSome = true
          ↔ ∃ id ∈ ids, goTrimSpace id = x ∧ x ≠ "") := by
  refine ⟨by decide, fun fetch ids fuel => rfl, fun fetch ids fuel x => ?_⟩
  have hinv0 : pendingKeysInv ⟨[], []⟩ := by
    intro p hp
    simp at hp
  have hinv := initPoll_inv ids ⟨[], []⟩ hinv0
  rw [pollLoop_keys fetch fuel 0 (initPoll ids ⟨[], []⟩) hinv x]
  rw [initPoll_keys ids ⟨[], []⟩ x]
  simp [lookupQP]

/-- C1: when an entry's normalized name resolves outside the
destination (the entry passes the size checks and does not normalize to
`"."`/`""`, but fails the prefix check), the extraction aborts with the
"unsafe path" error and performs no filesystem action for that entry —
the outcome's actions are exactly those accumulated before it.  In
particular, extracting an archive whose only entry is `"../evil.txt"`
into `/dest` yields the `unsafePath "../evil.txt"` error and the only
action ever taken is the initial `MkdirAll` of the destination itself:
nothing is created inside it. -/
theorem unzipSafe_unsafe_path_aborts :
    (∀ (cwd destDir : String) (acc : List FSAction) (total : Nat)
       (rest : List ZipEntry) (f : ZipEntry),
      f.uncompressedSize64 ≤ maxSingleUnzip →
      total + f.uncompressedSize64 ≤ maxTotalUnzip →
      ¬ (entryRel f.name = "." ∨ entryRel f.name = "") →
      pathUnsafe cwd destDir f.name = true →
      unzipGo cwd destDir (f :: rest) total acc
        = ⟨acc, some (.unsafePath f.name)⟩)
    ∧ unzipSafe "/" "/dest" [⟨"../evil.txt", 8, false, false, 0, 8⟩]
      = ⟨[.mkdirAll "/dest"], some (.unsafePath "../evil.txt")⟩ := by
  constructor
  · intro cwd destDir acc total rest f hsize htotal hrel hunsafe
    have hstep : entryStep cwd destDir total f
        = ([], total + f.uncompressedSize64, some (.unsafePath f.name)) := by
      unfold entryStep
      rw [if_neg (by omega)]
      dsimp only
      rw [if_neg (by omega)]
      rw [if_neg hrel]
      rw [if_pos hunsafe]
    unfold unzipGo
    rw [hstep]
    simp
  · decide

theorem unzipSafe_unsafe_path_aborts_witness :
    unzipGo "/" "/home/u/out" [⟨"../../etc/passwd", 3, false, false, 0, 3⟩] 0
        [.mkdirAll "/home/u/out"]
      = ⟨[.mkdirAll "/home/u/out"], some (.unsafePath "../../etc/passwd")⟩ :=
  unzipSafe_unsafe_path_aborts.1 "/" "/home/u/out" [.mkdirAll "/home/u/out"] 0 []
    ⟨"../../etc/passwd", 3, false, false, 0, 3⟩
    (by decide) (by decide) (by decide) (by decide)

theorem entryStep_write_le (cwd destDir : String) (total : Nat) (f : ZipEntry)
    (p : String) (b m : Nat)
    (hmem : FSAction.writeFile p b m ∈ (entryStep cwd destDir total f).1) :
    b ≤ maxSingleUnzip := by
  unfold entryStep at hmem
  split at hmem
  · simp at hmem
  · dsimp only at hmem
    split at hmem
    · simp at hmem
    · split at hmem
      · simp at hmem
      · split at hmem
        · simp at hmem
        · split at hmem
          · simp at hmem
          · split at hmem
            · simp at hmem
            · simp only [List.mem_cons, List.not_mem_nil, or_false] at hmem
              rcases hmem with h | h
              · exact absurd h (by simp)
              · simp only [FSAction.writeFile.injEq] at h
                obtain ⟨-, hb, -⟩ := h
                subst hb
                omega

theorem unzipGo_write_le (cwd destDir : String) :
    ∀ (l : List ZipEntry) (total : Nat) (acc : List FSAction),
    (∀ p b m, FSAction.writeFile p b m ∈ acc → b ≤ maxSingleUnzip) →
    ∀ p b m, FSAction.writeFile p b m ∈ (unzipGo cwd destDir l total acc).actions →
    b ≤ maxSingleUnzip := by
  intro l
  induction l with
  | nil => intro total acc hacc p b m hmem; exact hacc p b m hmem
  | cons f rest ih =>
      intro total acc hacc p b m hmem
      have happ : ∀ p' b' m',
          FSAction.writeFile p' b' m' ∈ acc ++ (entryStep cwd destDir total f).1 →
          b' ≤ maxSingleUnzip := by
        intro p' b' m' h'
        rcases List.mem_append.mp h' with h' | h'
        · exact hacc p' b' m' h'
        · exact entryStep_write_le cwd destDir total f p' b' m' h'
      unfold unzipGo at hmem
      rcases hstep : entryStep cwd destDir total f with ⟨acts, total', oerr⟩
      rw [hstep] at hmem happ
      cases oerr with
      | none => exact ih total' (acc ++ acts) happ p b m hmem
      | some e => exact happ p b m hmem

/-- C5: for every regular-file entry `unzipSafe` extracts, the bytes
that actually reach disk are capped at `maxSingleUnzip` even when the
entry's declared size lies: the streamed copy drains `archive/zip`'s
`checksumReader`, which delivers at most the declared size (≤ the cap
after the pre-check) and aborts the extraction with a size-mismatch
error, so the excess bytes of an over-long stream never reach disk.
First conjunct: every write in any `unzipSafe` run is `≤ maxSingleUnzip`,
with no assumption that declared and actual sizes agree.  Second
conjunct: the concrete lying entry (declared 8 bytes, actual stream
`maxSingleUnzip + 1` bytes) writes exactly 8 bytes and aborts. -/
theorem unzipSafe_write_capped :
    (∀ (cwd destDir : String) (entries : List ZipEntry) (p : String) (b m : Nat),
      FSAction.writeFile p b m ∈ (unzipSafe cwd destDir entries).actions →
      b ≤ maxSingleUnzip)
    ∧ unzipSafe "/" "/dest" [⟨"a.txt", 8, false, false, 0, maxSingleUnzip + 1⟩]
      = ⟨[.mkdirAll "/dest", .mkdirAll "/dest",
          .writeFile "/dest/a.txt" 8 0o644], some (.sizeMismatch "a.txt")⟩ := by
  constructor
  · intro cwd destDir entries p b m hmem
    unfold unzipSafe at hmem
    split at hmem
    · simp at hmem
    · refine unzipGo_write_le cwd destDir entries 0 [.mkdirAll destDir]
        ?_ p b m hmem
      intro p' b' m' h'
      simp at h'
  · decide

theorem unzipSafe_write_capped_witness :
    (5 : Nat) ≤ maxSingleUnzip :=
  unzipSafe_write_capped.1 "/" "/dest" [⟨"ok.txt", 5, false, false, 0, 5⟩]
    "/dest/ok.txt" 5 420 (by decide)

/-- C8: `Parse` is total and deterministic (it is a Lean function over
every body, status and decoder outcome), and (1) a body that trims to
empty or does not start with `{`/`[` yields the non-JSON fallback
`TypedError` — given status, message = status phrase, reason
"non-json error body", raw = trimmed body; (2) a body that does start
with `{`/`[` but fails JSON decoding yields status, message = status
phrase, reason "invalid json in error body", raw = trimmed body, and
details `{"unmarshal_error": <decoder message>}`. -/
theorem parse_fallback_contract (decode : String → Except String JSONValue)
    (slurp : String) (status : Int) :
    ((goTrimSpace slurp).toList = []
        ∨ ((goTrimSpace slurp).toList.head? ≠ some '{'
            ∧ (goTrimSpace slurp).toList.head? ≠ some '[') →
      goParse decode slurp status
        = ⟨status, 0, statusText status, "non-json error body", [],
           goTrimSpace slurp⟩)
    ∧ (∀ emsg : String,
       ¬ ((goTrimSpace slurp).toList = []
           ∨ ((goTrimSpace slurp).toList.head? ≠ some '{'
               ∧ (goTrimSpace slurp).toList.head? ≠ some '[')) →
       decode slurp = .error emsg →
       goParse decode slurp status
         = ⟨status, 0, statusText status, "invalid json in error body",
            [("unmarshal_error", .str emsg)], goTrimSpace slurp⟩) := by
  constructor
  · intro hcond
    unfold goParse
    rw [if_pos hcond]
  · intro emsg hcond hdec
    unfold goParse
    rw [if_neg hcond, hdec]

theorem parse_fallback_contract_witness :
    goParse (fun _ => .error "unexpected end of JSON input")
        "404 page not found" 404
      = ⟨404, 0, "Not Found", "non-json error body", [], "404 page not found"⟩
    ∧ goParse (fun _ => .error "unexpected end of JSON input")
        "  \x7b\"broken\"  " 502
      = ⟨502, 0, "Bad Gateway", "invalid json in error body",
         [("unmarshal_error", .str "unexpected end of JSON input")],
         "\x7b\"broken\""⟩ := by
  constructor
  · have h := (parse_fallback_contract
      (fun _ => .error "unexpected end of JSON input") "404 page not found" 404).1
      (by decide)
    rw [h]
    rfl
  · have h := (parse_fallback_contract
      (fun _ => .error "unexpected end of JSON input") "  \x7b\"broken\"  " 502).2
      "unexpected end of JSON input" (by decide) rfl
    rw [h]
    rfl

end Lokex
